import Mathlib

/-!
Verification development for the `numis` natural-language money parser.

The TypeScript sources are shallowly embedded in Lean:
* JavaScript numbers are modelled as exact rationals (`ℚ`).  All numeric
  literals appearing in the claims are exactly representable, so the only
  idealisation is that we ignore IEEE-754 rounding of `parseFloat`; every
  comparison against the safe-integer ceiling is unaffected by it.
* JavaScript exceptions are modelled with `Except ParseErr`; a `try/catch`
  that converts failure into "no match" becomes `Except.toOption`.
* Regular-expression scans are compiled by hand into total functions over
  `List Char` / token lists; each such function carries a comment naming
  the regex that it implements.
-/

/- The rational operations are `@[irreducible]` in Batteries, which blocks
`decide` from evaluating ground pipeline runs at elaboration time (the
kernel, which rechecks every `decide` proof, ignores reducibility
attributes).  Restoring the default reducibility only affects elaboration. -/
set_option allowUnsafeReducibility true in
attribute [semireducible] Rat.mul Rat.inv Rat.add Rat.sub Rat.div

deriving instance DecidableEq for Except

namespace Numis

/-- Errors thrown by the library.  Modelled from the spec: `src/errors.ts` is
not under `src/` (only importers of `MoneyParseError` / `ValueOverflowError`
are).  Spec section 6 describes two error classes: a structural/validation
error carrying the offending input string, and a distinct overflow error for
amounts exceeding the safe-integer ceiling; plain `Error` throws inside the
pattern modules are modelled by `jsError`. -/
inductive ParseErr where
  | jsError (msg : String)
  | moneyParse (msg : String) (text : String)
  | overflow (msg : String)
  deriving Repr, DecidableEq

/-- `Number.MAX_SAFE_INTEGER` (2^53 - 1). -/
def maxSafeInteger : ℚ := 9007199254740991

/-- JavaScript `\w`: ASCII letters, digits and underscore. -/
def isWordChar (c : Char) : Bool := c.isAlphanum || c = '_'

/-- Maximal runs of characters satisfying `p`, in order of appearance. -/
def runsAux (p : Char → Bool) : List Char → List Char → List (List Char)
  | [], acc => if acc.isEmpty then [] else [acc.reverse]
  | c :: cs, acc =>
    if p c then runsAux p cs (c :: acc)
    else if acc.isEmpty then runsAux p cs []
    else acc.reverse :: runsAux p cs []

/-- Maximal runs of word characters of `s`.  A regex `\b[A-Za-z]{n}\b` token
of the source corresponds to such a run that is all-alphabetic of length `n`
(interior positions of a word run are never at a word boundary). -/
def wordRuns (s : String) : List String :=
  (runsAux isWordChar s.toList []).map fun cs => String.mk cs

def isAllAlpha (t : String) : Bool := !t.toList.isEmpty && t.toList.all Char.isAlpha

/-- `toLowerCase` (ASCII, via `Char.toLower`); implemented over the character
list so that it reduces definitionally. -/
def toLowerStr (s : String) : String := String.mk (s.toList.map Char.toLower)

def toUpperStr (s : String) : String := String.mk (s.toList.map Char.toUpper)

/-- Join tokens with single spaces (`Array.prototype.join(" ")` /
`"..".join`), over character lists so that it reduces definitionally. -/
def joinSpaces (ts : List String) : String :=
  String.mk (((ts.map String.toList).intersperse [' ']).flatten)

/-- The ISO-4217 registry is the external `currency-codes` package (an
out-of-scope collaborator per spec section 1); it is modelled by the finite
fragment of entries that the theorems touch.  Field `digits` is the
decimal-digit count (`0` for currencies without minor units). -/
structure CurrencyInfo where
  code : String
  number : String
  currency : String
  digits : Option Nat
  deriving Repr, DecidableEq

/-- Finite model of `currency-codes`' data (see `CurrencyInfo`). -/
def getAllCurrencies : List CurrencyInfo :=
  [ ⟨"USD", "840", "US Dollar", some 2⟩,
    ⟨"EUR", "978", "Euro", some 2⟩,
    ⟨"GBP", "826", "Pound Sterling", some 2⟩,
    ⟨"JPY", "392", "Yen", some 0⟩,
    ⟨"INR", "356", "Indian Rupee", some 2⟩,
    ⟨"CHF", "756", "Swiss Franc", some 2⟩,
    ⟨"CAD", "124", "Canadian Dollar", some 2⟩ ]

/-- `src/currencyData.ts` `getCurrencyByCode`: empty input gives `null`,
otherwise the registry is queried with the upper-cased code. -/
def getCurrencyByCode (code : String) : Option CurrencyInfo :=
  if code = "" then none
  else getAllCurrencies.find? fun c => c.code = toUpperStr code

/-- `src/currencyMapBuilder.ts` stopwords. -/
def STOPWORDS : List String := ["and", "the", "of"]

/-- Whitespace-separated words of a string (JS `split(/\s+/)` after a trim,
i.e. the maximal runs of non-whitespace characters). -/
def splitWords (s : String) : List String :=
  (runsAux (fun c => !c.isWhitespace) s.toList []).map fun cs => String.mk cs

/-- `src/currencyMapBuilder.ts` `getNameToCodeMap`, represented as the list
of `map[key] = code` assignments in execution order (full lowercased name,
then each significant word of the name with a simple plural, then the manual
overrides).  A later assignment to the same key wins, as for a JS object. -/
def nameToCodePairs : List (String × String) :=
  (getAllCurrencies.flatMap fun cur =>
    let nameLower := toLowerStr cur.currency
    (nameLower, cur.code) ::
      ((splitWords nameLower).filter
          (fun w => w.toList.length > 2 && !(STOPWORDS.contains w))).flatMap
        fun w =>
          (w, cur.code) ::
            (if !(w.toList.getLast? == some 's') then [(w ++ "s", cur.code)]
             else [])) ++
  [ ("dollar", "USD"), ("dollars", "USD"),
    ("euro", "EUR"), ("euros", "EUR"),
    ("pound", "GBP"), ("pounds", "GBP"),
    ("yen", "JPY"),
    ("rupee", "INR"), ("rupees", "INR"),
    ("peso", "MXN"), ("pesos", "MXN"),
    ("won", "KRW"),
    ("dirham", "AED"), ("dirhams", "AED") ]

/-- Lookup in the name-to-code map (last assignment wins). -/
def getNameToCodeMap (k : String) : Option String :=
  (nameToCodePairs.reverse.find? fun p => p.1 = k).map (·.2)

/-- `src/regexPipeline.ts` `SYMBOL_TO_CODE`. -/
def SYMBOL_TO_CODE : List (Char × String) :=
  [ ('$', "USD"), ('€', "EUR"), ('£', "GBP"), ('¥', "JPY"),
    ('₹', "INR"), ('₽', "RUB"), ('₩', "KRW"), ('฿', "THB") ]

def symbolToCode (c : Char) : Option String :=
  (SYMBOL_TO_CODE.find? fun p => p.1 = c).map (·.2)

/-- The pipeline context (`src/regexPipeline.ts` `PipelineContext`).
`currencyWasDefault` belongs to the newer pipeline missing from `src/`
(spec section 6); `matchesMeta` stands in for the opaque match-metadata
record (source field `matches`, a reserved word in Lean). -/
structure PipelineContext where
  original : String
  currency : Option String := none
  amount : Option ℚ := none
  currencyWasDefault : Option Bool := none
  matchesMeta : Option Unit := none
  deriving Repr, DecidableEq

/-- `src/regexPipeline.ts` `currencyDetectionStep`: first a scan for a known
currency symbol (`SYMBOL_REGEX`, i.e. the first character of the input that
is in the symbol table); then the first word-bounded 3-letter token that is a
valid ISO code; then (only when no currency is set) the first word-bounded
token of length ≥ 3 found in the name-to-code map. -/
def currencyDetectionStep (input : String) (ctx : PipelineContext) : PipelineContext :=
  match input.toList.find? fun c => (symbolToCode c).isSome with
  | some c => { ctx with currency := some ((symbolToCode c).getD (String.mk [c])) }
  | none =>
    let isoCandidates := (wordRuns input).filter fun t => isAllAlpha t && t.toList.length == 3
    match isoCandidates.findSome? (fun t =>
        if (getCurrencyByCode (toUpperStr t)).isSome then some (toUpperStr t) else none) with
    | some code => { ctx with currency := some code }
    | none =>
      if ctx.currency.isSome then ctx
      else
        let nameCandidates := (wordRuns input).filter fun t => isAllAlpha t && t.toList.length ≥ 3
        match nameCandidates.findSome? (fun t => getNameToCodeMap (toLowerStr t)) with
        | some code => { ctx with currency := some code }
        | none => ctx

/-! ### `src/patterns/wordedNumbers.ts` -/

/-- `BASIC_NUMBERS` (0-19). -/
def BASIC_NUMBERS : String → Option ℚ
  | "zero" => some 0 | "one" => some 1 | "two" => some 2 | "three" => some 3
  | "four" => some 4 | "five" => some 5 | "six" => some 6 | "seven" => some 7
  | "eight" => some 8 | "nine" => some 9 | "ten" => some 10 | "eleven" => some 11
  | "twelve" => some 12 | "thirteen" => some 13 | "fourteen" => some 14
  | "fifteen" => some 15 | "sixteen" => some 16 | "seventeen" => some 17
  | "eighteen" => some 18 | "nineteen" => some 19
  | _ => none

/-- `TENS` (20-90). -/
def TENS : String → Option ℚ
  | "twenty" => some 20 | "thirty" => some 30 | "forty" => some 40
  | "fifty" => some 50 | "sixty" => some 60 | "seventy" => some 70
  | "eighty" => some 80 | "ninety" => some 90
  | _ => none

/-- `SCALES`. -/
def SCALES : String → Option ℚ
  | "hundred" => some 100 | "thousand" => some 1000 | "million" => some 1000000
  | "billion" => some 1000000000 | "trillion" => some 1000000000000
  | _ => none

/-- `FRACTIONS` (the source's `1 / 3` is an IEEE double; modelled exactly). -/
def FRACTIONS : String → Option ℚ
  | "half" => some (1 / 2) | "halves" => some (1 / 2)
  | "quarter" => some (1 / 4) | "quarters" => some (1 / 4)
  | "third" => some (1 / 3) | "thirds" => some (1 / 3)
  | _ => none

/-- `FRACTION_MULTIPLIERS` (one-nine). -/
def FRACTION_MULTIPLIERS : String → Option ℚ
  | "one" => some 1 | "two" => some 2 | "three" => some 3 | "four" => some 4
  | "five" => some 5 | "six" => some 6 | "seven" => some 7 | "eight" => some 8
  | "nine" => some 9
  | _ => none

/-- Token stream of `normalizeInput` + `tokenize` of `wordedNumbers.ts`:
lower-case, split on whitespace and hyphens, drop empty tokens and the
word-bounded connective `and` (removed by `normalizeInput`). -/
def wordedTokens (input : String) : List String :=
  ((runsAux (fun c => !(c.isWhitespace || c = '-')) (toLowerStr input).toList []).map
      fun cs => String.mk cs).filter fun t => t ≠ "and"

/-- One iteration of the token loop of `parseWordedNumber` over the state
`(total, current)`: basic numbers and tens add into `current`; a scale word
first replaces a zero `current` by 1, multiplies, and for scales ≥ 1000
flushes `current` into `total`; `a` is skipped; anything else throws. -/
def wordedStep (acc : ℚ × ℚ) (token : String) : Except ParseErr (ℚ × ℚ) :=
  match BASIC_NUMBERS token with
  | some v => .ok (acc.1, acc.2 + v)
  | none =>
    match TENS token with
    | some v => .ok (acc.1, acc.2 + v)
    | none =>
      match SCALES token with
      | some scale =>
        let current := if acc.2 = 0 then 1 else acc.2
        let current := current * scale
        if 1000 ≤ scale then .ok (acc.1 + current, 0) else .ok (acc.1, current)
      | none =>
        if token = "a" then .ok acc
        else .error (.jsError ("Unrecognized word in number: " ++ token))

/-- `parseWordedNumber`, token-level core: fold the loop over the tokens,
return `total + current`, and throw `ValueOverflowError` past the ceiling. -/
def parseWordedNumberTokens (tokens : List String) : Except ParseErr ℚ := do
  if tokens.isEmpty then
    throw (ParseErr.jsError "Invalid worded number")
  let st ← tokens.foldlM wordedStep ((0 : ℚ), (0 : ℚ))
  let result := st.1 + st.2
  if result > maxSafeInteger then
    throw (ParseErr.overflow "Number exceeds maximum safe integer")
  return result

/-- `src/patterns/wordedNumbers.ts` `parseWordedNumber`. -/
def parseWordedNumber (input : String) : Except ParseErr ℚ :=
  if input = "" then .error (.jsError "Input must be a non-empty string")
  else parseWordedNumberTokens (wordedTokens input)

/-- `extractMagnitude` of `parseFractionalWordedNumber`: the first scale word
at or after `start`. -/
def extractMagnitude (tokens : List String) (start : Nat) : Option ℚ :=
  (tokens.drop start).findSome? SCALES

/-- `parseFractionalWordedNumber`, token-level core.  Case 1: a single
fraction word.  Case 2: exactly multiplier + fraction.  Case 3: fraction
(possibly multiplier-prefixed), an optional `of`, then a magnitude word;
overflow is checked on the product.  The `a` tokens are filtered out first. -/
def parseFractionalWordedNumberTokens (tokens : List String) : Except ParseErr ℚ :=
  if tokens.isEmpty then .error (.jsError "Invalid fractional worded number")
  else
    let filteredTokens := tokens.filter fun t => t ≠ "a"
    match filteredTokens with
    | [] => .error (.jsError "Invalid fractional worded number")
    | [w] =>
      match FRACTIONS w with
      | some f => .ok f
      | none => .error (.jsError ("Unrecognized fractional word: " ++ w))
    | w1 :: w2 :: rest =>
      match rest, FRACTION_MULTIPLIERS w1, FRACTIONS w2 with
      | [], some mv, some fv => .ok (mv * fv)
      | _, _, _ =>
        let frac? : Option (ℚ × Nat) :=
          match FRACTIONS w1 with
          | some f => some (f, 0)
          | none =>
            match FRACTION_MULTIPLIERS w1, FRACTIONS w2 with
            | some mv, some fv => some (mv * fv, 1)
            | _, _ => none
        match frac? with
        | some (fv, endIdx) =>
          let searchStart := endIdx + 1
          let searchStart :=
            if filteredTokens.get? searchStart = some "of" then searchStart + 1
            else searchStart
          match extractMagnitude filteredTokens searchStart with
          | some m =>
            let result := fv * m
            if result > maxSafeInteger then
              .error (.overflow "Number exceeds maximum safe integer")
            else .ok result
          | none =>
            if filteredTokens.length = 2 then
              .error (.jsError "Invalid fractional pattern")
            else .error (.jsError "Invalid fractional worded number")
        | none =>
          if filteredTokens.length = 2 then
            .error (.jsError "Invalid fractional pattern")
          else .error (.jsError "Invalid fractional worded number")

/-- `src/patterns/wordedNumbers.ts` `parseFractionalWordedNumber`. -/
def parseFractionalWordedNumber (input : String) : Except ParseErr ℚ :=
  if input = "" then .error (.jsError "Input must be a non-empty string")
  else parseFractionalWordedNumberTokens (wordedTokens input)

/-- Lower-cased maximal alphabetic runs of the input; the word-bounded word
tokens that the matcher regexes of the source can see. -/
def alphaAtoms (s : String) : List String :=
  (runsAux (fun c => c.isAlpha) s.toList []).map fun cs =>
    toLowerStr (String.mk cs)

/-- Hand-compilation of `FRACTIONAL_WORDED_NUMBER_REGEX`
`(?:a\s+)?(?:(?:mult)[\s-]+)?(?:fraction)(?:\s+(?:of\s+)?(?:a\s+)?(?:scale))?`:
the leftmost fraction word, extended left over an adjacent multiplier and
`a`, and right over an optional `of`/`a` + magnitude word.  The token
separators of the raw text are coarsened to whitespace/hyphens; no theorem
depends on other separators. -/
def findFractionalCandidate (input : String) : Option String :=
  let atoms := alphaAtoms input
  match atoms.findIdx? (fun t => (FRACTIONS t).isSome) with
  | none => none
  | some i =>
    let j :=
      match (if i > 0 then atoms.get? (i - 1) else none) with
      | some t => if (FRACTION_MULTIPLIERS t).isSome then i - 1 else i
      | none => i
    let j :=
      match (if j > 0 then atoms.get? (j - 1) else none) with
      | some t => if t = "a" then j - 1 else j
      | none => j
    let k := i + 1
    let k := if atoms.get? k = some "of" then k + 1 else k
    let k := if atoms.get? k = some "a" then k + 1 else k
    let e :=
      match atoms.get? k with
      | some t => if (SCALES t).isSome then k + 1 else i + 1
      | none => i + 1
    some (joinSpaces ((atoms.drop j).take (e - j)))

/-- Result type of the worded-number matchers. -/
structure WordedNumberParseResult where
  value : ℚ
  raw : String
  deriving Repr, DecidableEq

/-- `src/patterns/wordedNumbers.ts` `matchFractionalWordedNumber`: run the
candidate regex, then `parseFractionalWordedNumber` inside a catch-all
`try`, so every parse failure — overflow included — becomes `none`. -/
def matchFractionalWordedNumber (input : String) : Option WordedNumberParseResult :=
  if input = "" then none
  else
    match findFractionalCandidate input with
    | none => none
    | some cand =>
      match parseFractionalWordedNumber cand with
      | .ok v => some ⟨v, cand⟩
      | .error _ => none

/-! ### Decimal numerals -/

def digitsToNat (cs : List Char) : Nat :=
  cs.foldl (fun n c => 10 * n + (c.toNat - Char.toNat '0')) 0

/-- Exact value of a string matching `^\d+(?:\.\d+)?$`, `none` otherwise
(the `parseFloat` of the source, idealised to an exact rational). -/
def parseDecimalString (s : String) : Option ℚ :=
  let cs := s.toList
  let ip := cs.takeWhile Char.isDigit
  let rest := cs.dropWhile Char.isDigit
  if ip.isEmpty then none
  else
    match rest with
    | [] => some (digitsToNat ip)
    | '.' :: fp =>
      if !fp.isEmpty && fp.all Char.isDigit then
        some ((digitsToNat ip : ℚ) + (digitsToNat fp : ℚ) / 10 ^ fp.length)
      else none
    | _ => none

/-! ### `src/patterns/slangTerms.ts` -/

/-- `SLANG_MAP`: slang token → (currency, unit value). -/
def SLANG_MAP : String → Option (String × ℚ)
  | "buck" => some ("USD", 1) | "bucks" => some ("USD", 1)
  | "quid" => some ("GBP", 1) | "quids" => some ("GBP", 1)
  | "fiver" => some ("GBP", 5) | "fivers" => some ("GBP", 5)
  | "tenner" => some ("GBP", 10) | "tenners" => some ("GBP", 10)
  | "grand" => some ("USD", 1000) | "grands" => some ("USD", 1000)
  | _ => none

/-- `CENTS_WORD_MAP` for `buck fifty`-style suffixes (source doubles 0.10 …
0.90 idealised to exact rationals). -/
def CENTS_WORD_MAP : String → Option ℚ
  | "ten" => some (10 / 100) | "twenty" => some (20 / 100)
  | "thirty" => some (30 / 100) | "forty" => some (40 / 100)
  | "fifty" => some (50 / 100) | "sixty" => some (60 / 100)
  | "seventy" => some (70 / 100) | "eighty" => some (80 / 100)
  | "ninety" => some (90 / 100)
  | _ => none

structure SlangParseResult where
  value : ℚ
  currency : String
  raw : String
  deriving Repr, DecidableEq

/-- `parseQuantity`: empty → 1, article → 1, `half`/`half a` → 0.5, numeric
string, else fractional worded number, else worded number, else `null`. -/
def parseQuantity (tokens : List String) : Option ℚ :=
  if tokens.isEmpty then some 1
  else
    let candidate := joinSpaces tokens
    if candidate = "" then some 1
    else if candidate = "a" ∨ candidate = "an" then some 1
    else if candidate = "half" ∨ candidate = "half a" then some (1 / 2)
    else
      match parseDecimalString candidate with
      | some q => some q
      | none =>
        match parseFractionalWordedNumber candidate with
        | .ok v => some v
        | .error _ =>
          match parseWordedNumber candidate with
          | .ok v => some v
          | .error _ => none

/-- `parseSlangTerm`, token-level core: locate the first slang token, parse
up to 6 preceding tokens as the quantity, apply the cents-word suffix only
for the tokens `buck`/`bucks` (unit 1), and check overflow. -/
def parseSlangTermTokens (tokens : List String) : Except ParseErr SlangParseResult :=
  match tokens.findIdx? (fun t => (SLANG_MAP t).isSome) with
  | none => .error (.jsError "Unrecognized slang term")
  | some slangIndex =>
    let slangToken := (tokens.get? slangIndex).getD ""
    match SLANG_MAP slangToken with
    | none => .error (.jsError "Unrecognized slang term")
    | some (currency, unit) =>
      let quantityTokens := (tokens.take slangIndex).drop (slangIndex - 6)
      match parseQuantity quantityTokens with
      | none => .error (.jsError "Invalid quantity for slang term")
      | some quantity =>
        let value := quantity * unit
        let value :=
          if (slangToken = "buck" ∨ slangToken = "bucks") ∧ unit = 1 then
            match (tokens.get? (slangIndex + 1)).bind CENTS_WORD_MAP with
            | some cv => value + cv
            | none => value
          else value
        if value > maxSafeInteger then
          .error (.overflow "Number exceeds maximum safe integer")
        else
          let endIndex :=
            if (slangToken = "buck" ∨ slangToken = "bucks")
                ∧ ((tokens.get? (slangIndex + 1)).bind CENTS_WORD_MAP).isSome then
              slangIndex + 2
            else slangIndex + 1
          .ok ⟨value, currency,
            joinSpaces ((tokens.take endIndex).drop (slangIndex - 6))⟩

/-- `src/patterns/slangTerms.ts` `parseSlangTerm` (`normalizeInput` + split). -/
def parseSlangTerm (input : String) : Except ParseErr SlangParseResult :=
  if input = "" then .error (.jsError "Input must be a non-empty string")
  else parseSlangTermTokens (splitWords (toLowerStr input))

/-- Quantity tokens admitted by `SLANG_REGEX` before a slang term. -/
def isQuantityToken (t : String) : Bool :=
  (parseDecimalString t).isSome ||
    [ "a", "an", "half", "halves", "quarter", "quarters", "third", "thirds",
      "one", "two", "three", "four", "five", "six", "seven", "eight", "nine",
      "ten", "eleven", "twelve", "thirteen", "fourteen", "fifteen", "sixteen",
      "seventeen", "eighteen", "nineteen", "twenty", "thirty", "forty",
      "fifty", "sixty", "seventy", "eighty", "ninety", "hundred", "thousand",
      "million", "billion", "trillion", "of" ].contains t

/-- Hand-compilation of `SLANG_REGEX`
`(?:(?:quantity)\s+){0,6}(?:slang)(?:\s+(?:cents))?`: the first slang token,
greedily extended left over up to six adjacent quantity tokens (leftmost
match) and right over a cents word.  Token separators are coarsened to
whitespace. -/
def findSlangCandidate (input : String) : Option (List String) :=
  let toks := splitWords (toLowerStr input)
  match toks.findIdx? (fun t => (SLANG_MAP t).isSome) with
  | none => none
  | some i =>
    let quantityPrefix :=
      (((toks.take i).reverse.takeWhile isQuantityToken).take 6).reverse
    let cents :=
      match toks.get? (i + 1) with
      | some c => if (CENTS_WORD_MAP c).isSome then [c] else []
      | none => []
    some (quantityPrefix ++ (toks.get? i).toList ++ cents)

/-- `src/patterns/slangTerms.ts` `matchSlangTerm`: run `SLANG_REGEX`, then
`parseSlangTerm` inside a catch-all `try`, so every parse failure — overflow
included — becomes `none`.  (`parseSlangTerm` on the joined candidate
re-tokenizes to the same tokens, so the core is applied directly.) -/
def matchSlangTerm (input : String) : Option SlangParseResult :=
  if input = "" then none
  else
    match findSlangCandidate input with
    | none => none
    | some candToks =>
      match parseSlangTermTokens candToks with
      | .ok r => some r
      | .error _ => none

/-! ### Numeric-word combos -/

structure NumericWordComboResult where
  value : ℚ
  deriving Repr, DecidableEq

/-- Modelled from the spec: `src/patterns/numericWordCombos.ts` is not under
`src/` (only its importer `src/regexPipeline.ts` is).  Spec section 4.7:
"Numeric-word combo: digits followed by a shorthand magnitude suffix
(k/m/b/bn), case-insensitive", with k → 10^3, m → 10^6, b/bn → 10^9; the
pipeline consumes only the numeric `value`. -/
def matchNumericWordCombo (input : String) : Option NumericWordComboResult :=
  (wordRuns (toLowerStr input)).findSome? fun run =>
    let cs := run.toList
    let ds := cs.takeWhile Char.isDigit
    let suffix := String.mk (cs.dropWhile Char.isDigit)
    if ds.isEmpty then none
    else
      match suffix with
      | "k" => some ⟨(digitsToNat ds : ℚ) * 1000⟩
      | "m" => some ⟨(digitsToNat ds : ℚ) * 1000000⟩
      | "b" => some ⟨(digitsToNat ds : ℚ) * 1000000000⟩
      | "bn" => some ⟨(digitsToNat ds : ℚ) * 1000000000⟩
      | _ => none

/-! ### Plain numerals in the pipeline -/

/-- Hand-compilation of the pipeline's plain-numeric regex
`/(?:\b|^)(\d+(?:\.\d+)?)(?:\b|$)/`: scan left to right for a digit at a
word boundary; take the maximal digit run, an optional fractional part that
must itself end at a boundary, and otherwise fall back to the integer part
(the boundary after it being the `.` itself) or resume the scan. -/
def findPlainNumAux : Option Char → List Char → Option ℚ
  | _, [] => none
  | prev, c :: cs =>
    let boundaryStart :=
      match prev with
      | none => true
      | some p => !isWordChar p
    if c.isDigit && boundaryStart then
      let ds := (c :: cs).takeWhile Char.isDigit
      let rest := (c :: cs).dropWhile Char.isDigit
      match rest with
      | [] => some (digitsToNat ds)
      | '.' :: r2 =>
        let fs := r2.takeWhile Char.isDigit
        let rest2 := r2.dropWhile Char.isDigit
        if fs.isEmpty then some (digitsToNat ds)
        else
          match rest2 with
          | [] => some ((digitsToNat ds : ℚ) + (digitsToNat fs : ℚ) / 10 ^ fs.length)
          | r :: _ =>
            if isWordChar r then some (digitsToNat ds)
            else some ((digitsToNat ds : ℚ) + (digitsToNat fs : ℚ) / 10 ^ fs.length)
      | r :: _ =>
        if isWordChar r then findPlainNumAux (some c) cs
        else some (digitsToNat ds)
    else findPlainNumAux (some c) cs

def findPlainNumber (s : String) : Option ℚ :=
  findPlainNumAux none s.toList

/-! ### Contextual phrases (`src/patterns/contextualPhrases.ts`, the current
version embedded in `src/src/patterns/minorUnitsOnly.ts` lines 443-737) -/

/-- `MINOR_UNIT_ALIASES`: minor token → (restricted currency, table scale). -/
def MINOR_UNIT_ALIASES : String → Option (Option String × ℚ)
  | "cent" => some (none, 100) | "cents" => some (none, 100)
  | "penny" => some (some "GBP", 100) | "pennies" => some (some "GBP", 100)
  | "pence" => some (some "GBP", 100)
  | _ => none

def ARTICLES : List String := ["a", "an", "the"]

/-- `normalize` + `split(" ").filter(Boolean)` of the contextual parser. -/
def ctxTokens (input : String) : List String :=
  splitWords (toLowerStr input)

/-- `parseAmountTokens`: strip leading articles (empty after stripping → 1),
then numeric string, then the hybrid `digit + magnitude words` form (whose
inner failure is swallowed), then fractional worded number (failure
swallowed), then worded number. -/
def parseAmountTokens (tokens : List String) : Except ParseErr ℚ :=
  if tokens.isEmpty then .error (.jsError "Invalid quantity")
  else
    let stripped := tokens.dropWhile fun t => ARTICLES.contains t
    if stripped.isEmpty then .ok 1
    else
      let candidate := joinSpaces stripped
      match parseDecimalString candidate with
      | some q => .ok q
      | none =>
        let hybrid : Option ℚ :=
          match stripped with
          | t1 :: t2 :: rest =>
            match parseDecimalString t1 with
            | some n =>
              match parseWordedNumber (joinSpaces (t2 :: rest)) with
              | .ok mv => some (n * mv)
              | .error _ => none
            | none => none
          | _ => none
        match hybrid with
        | some v => .ok v
        | none =>
          match parseFractionalWordedNumber candidate with
          | .ok v => .ok v
          | .error _ => parseWordedNumber candidate

/-- `lookupCurrency`: a 3-letter alphabetic token valid as an ISO code, else
the name-to-code map. -/
def lookupCurrency (token : String) : Option String :=
  match
    (if token.toList.length = 3 ∧ isAllAlpha token then
      (getCurrencyByCode (toUpperStr token)).map (·.code)
    else none) with
  | some c => some c
  | none => getNameToCodeMap token

/-- Effective decimal-digit count: `currencyInfo?.digits ?? 2`. -/
def effDigits (currency : String) : Nat :=
  match getCurrencyByCode currency with
  | some info => info.digits.getD 2
  | none => 2

/-- `minorScaleForCurrency`: unknown alias or alias restricted to another
currency or zero-decimal currency → `null`, else `10^digits`. -/
def minorScaleForCurrency (currency minorToken : String) : Option ℚ :=
  match MINOR_UNIT_ALIASES minorToken with
  | none => none
  | some (aliasCur, _) =>
    if (match aliasCur with | some c => c != currency | none => false : Bool) then none
    else
      let digits := effDigits currency
      if digits = 0 then none else some ((10 : ℚ) ^ digits)

/-- The contextual parser's own `getMinorUnitScale`. -/
def getMinorUnitScaleCtx (currency : String) : Option ℚ :=
  let digits := effDigits currency
  if digits = 0 then none else some ((10 : ℚ) ^ digits)

/-- `tryParseMinorAmount`: all-digit string, else worded number, else none. -/
def tryParseMinorAmount (tokens : List String) : Option ℚ :=
  if tokens.isEmpty then none
  else
    let candidate := joinSpaces tokens
    if !candidate.toList.isEmpty && candidate.toList.all Char.isDigit then
      some (digitsToNat candidate.toList)
    else
      match parseWordedNumber candidate with
      | .ok v => some v
      | .error _ => none

structure ContextualParseResult where
  value : ℚ
  currency : String
  raw : String
  deriving Repr, DecidableEq

/-- The `for` loop of `parseContextualPhrase` that finds the first token
with a currency interpretation, together with its index. -/
def findCurrencyAux : List String → Nat → Option (Nat × String)
  | [], _ => none
  | t :: ts, i =>
    match lookupCurrency t with
    | some c => some (i, c)
    | none => findCurrencyAux ts (i + 1)

/-- Final overflow check + result of `parseContextualPhrase`. -/
def finishContextual (value : ℚ) (currencyCode raw : String) :
    Except ParseErr ContextualParseResult :=
  if value > maxSafeInteger then
    .error (.overflow "Number exceeds maximum safe integer")
  else .ok ⟨value, currencyCode, raw⟩

/-- `parseContextualPhrase`, token-level core: first currency token, major
amount from the tokens before it, then either an explicit minor unit (with
optional `and`), validated as strictly below the currency's scale, or the
colloquial trailing-number form (`a dollar fifty`), and a final overflow
check. -/
def parseContextualPhraseTokens (tokens : List String) :
    Except ParseErr ContextualParseResult :=
  if tokens.isEmpty then .error (.jsError "Input must be a non-empty string")
  else
    match findCurrencyAux tokens 0 with
    | none => .error (.jsError "Unrecognized currency")
    | some (currencyIndex, currencyCode) => do
      let major ← parseAmountTokens (tokens.take currencyIndex)
      let afterCurrency := tokens.drop (currencyIndex + 1)
      let hasAnd := afterCurrency.head? = some "and"
      let afterConnector := if hasAnd then afterCurrency.tail else afterCurrency
      match afterConnector.findIdx? (fun t => (MINOR_UNIT_ALIASES t).isSome) with
      | some minorIndex =>
        let minorToken := (afterConnector.get? minorIndex).getD ""
        let minor ← parseAmountTokens (afterConnector.take minorIndex)
        match minorScaleForCurrency currencyCode minorToken with
        | none => throw (ParseErr.jsError "Minor unit not supported for currency")
        | some scale =>
          if minor ≥ scale then
            throw (ParseErr.jsError "Invalid minor unit amount")
          else
            let value := major + minor / scale
            let rawEnd := currencyIndex + 1 + (if hasAnd then 1 else 0) + minorIndex + 1
            finishContextual value currencyCode (joinSpaces (tokens.take rawEnd))
      | none =>
        if !afterCurrency.isEmpty && !hasAnd then
          match getMinorUnitScaleCtx currencyCode with
          | some scale =>
            match tryParseMinorAmount afterCurrency with
            | some minor =>
              if minor < scale then
                finishContextual (major + minor / scale) currencyCode
                  (joinSpaces tokens)
              else
                finishContextual major currencyCode
                  (joinSpaces (tokens.take (currencyIndex + 1)))
            | none =>
              finishContextual major currencyCode
                (joinSpaces (tokens.take (currencyIndex + 1)))
          | none =>
            finishContextual major currencyCode
              (joinSpaces (tokens.take (currencyIndex + 1)))
        else
          finishContextual major currencyCode
            (joinSpaces (tokens.take (currencyIndex + 1)))

/-- `parseContextualPhrase` (string level). -/
def parseContextualPhrase (input : String) : Except ParseErr ContextualParseResult :=
  if input = "" then .error (.jsError "Input must be a non-empty string")
  else parseContextualPhraseTokens (ctxTokens input)

/-- `matchContextualPhrase`, coarsened: the source enumerates windows with a
large generated regex and tries `parseContextualPhrase` on each, swallowing
every error (`continue`).  The model tries the whole normalized input when
some token can denote a currency.  No theorem depends on the precise window
enumeration: the pipeline theorems condition on this matcher's output, and
claim C5 is settled against `parseContextualPhrase` itself. -/
def matchContextualPhrase (input : String) : Option ContextualParseResult :=
  if input = "" then none
  else
    let toks := ctxTokens input
    if toks.any (fun t => (lookupCurrency t).isSome) then
      match parseContextualPhraseTokens toks with
      | .ok r => some r
      | .error _ => none
    else none

/-! ### `src/regexPipeline.ts` numeric detection and the pipeline -/

/-- `input.replace(/,/g, "")`. -/
def stripCommas (s : String) : String :=
  String.mk (s.toList.filter fun c => c ≠ ',')

/-- The pipeline-internal `wordsToNumber` `SMALL` table (0-19 and tens). -/
def pipelineSmall (t : String) : Option ℚ :=
  (BASIC_NUMBERS t).orElse fun _ => TENS t

/-- The pipeline-internal `wordsToNumber` `MAGNITUDE` table reachable after
the dedicated `hundred` branch (no trillion). -/
def pipelineMagnitude : String → Option ℚ
  | "thousand" => some 1000 | "million" => some 1000000
  | "billion" => some 1000000000
  | _ => none

/-- One iteration of the pipeline-internal `wordsToNumber` loop: note that
`hundred` multiplies the subtotal directly (no empty-subtotal-as-1 here). -/
def wordsToNumberStep (acc : ℚ × ℚ) (token : String) : Option (ℚ × ℚ) :=
  match pipelineSmall token with
  | some v => some (acc.1, acc.2 + v)
  | none =>
    if token = "hundred" then some (acc.1, acc.2 * 100)
    else
      match pipelineMagnitude token with
      | some m => some (acc.1 + acc.2 * m, 0)
      | none => none

/-- `src/regexPipeline.ts` `wordsToNumber` (lower-case, hyphens to spaces,
drop `and`, then the loop; unknown token → `null`). -/
def wordsToNumber (words : String) : Option ℚ :=
  if words = "" then none
  else
    ((wordedTokens words).foldlM wordsToNumberStep ((0 : ℚ), (0 : ℚ))).map
      fun st => st.1 + st.2

/-- Number words of the pipeline's `wordNumberRegex` (no trillion, no `a`). -/
def isPipelineNumberWord (t : String) : Bool :=
  (BASIC_NUMBERS t).isSome || (TENS t).isSome ||
    ["hundred", "thousand", "million", "billion"].contains t

/-- First maximal run of tokens satisfying `p`. -/
def firstRun (p : String → Bool) : List String → Option (List String)
  | [] => none
  | t :: ts => if p t then some (t :: ts.takeWhile p) else firstRun p ts

/-- Hand-compilation of `wordNumberRegex`: the leftmost maximal sequence of
number words (separators coarsened to the non-alphabetic characters). -/
def findWordedMatch (input : String) : Option String :=
  (firstRun isPipelineNumberWord (alphaAtoms input)).map joinSpaces

/-- `src/regexPipeline.ts` `numericDetectionStep`: strip commas, then try
numeric-word combo, slang, contextual phrase, plain numeral, fractional
worded number and worded number, in that order, stopping at the first
match; slang and contextual matches also supply their currency, but only
when the context has none yet (`out.currency ?? match.currency`). -/
def numericDetectionStep (input : String) (ctx : PipelineContext) : PipelineContext :=
  let cleaned := stripCommas input
  match matchNumericWordCombo cleaned with
  | some combo => { ctx with amount := some combo.value }
  | none =>
    match matchSlangTerm cleaned with
    | some slang =>
      { ctx with amount := some slang.value,
                 currency := some (ctx.currency.getD slang.currency) }
    | none =>
      match matchContextualPhrase cleaned with
      | some ctxm =>
        { ctx with amount := some ctxm.value,
                   currency := some (ctx.currency.getD ctxm.currency) }
      | none =>
        match findPlainNumber cleaned with
        | some q => { ctx with amount := some q }
        | none =>
          match matchFractionalWordedNumber cleaned with
          | some fr => { ctx with amount := some fr.value }
          | none =>
            match findWordedMatch cleaned with
            | some ws =>
              match wordsToNumber ws with
              | some v => { ctx with amount := some v }
              | none => ctx
            | none => ctx

/-- `patternSpecificStep`: `out.matches = out.matches ?? empty-record`. -/
def patternSpecificStep (_input : String) (ctx : PipelineContext) : PipelineContext :=
  { ctx with matchesMeta := some (ctx.matchesMeta.getD ()) }

/-- The ordered application of the three default steps of
`RegexPipeline.default()` to a fresh context (`src/src/regexPipeline.ts`,
`RegexPipeline.run`'s loop). -/
def pipelineSteps (input : String) : PipelineContext :=
  patternSpecificStep input
    (numericDetectionStep input
      (currencyDetectionStep input { original := input }))

/-- `RegexPipeline.default().run`.  The step loop is embedded from
`src/src/regexPipeline.ts` (see `pipelineSteps`); the trailing
default-currency application is Modelled from the spec: the options-taking
`run` (`RunOptions`, `currencyWasDefault`) is missing from `src/` — the file
there predates its callers (`parseMoney.ts` passes options, `index.ts`
re-exports `RunOptions`) — and spec section 6 says a validated default is
applied only when no currency was detected, setting `currencyWasDefault`. -/
def runPipeline (input : String) (defaultCurrency : Option String := none) :
    PipelineContext :=
  let ctx := pipelineSteps input
  match ctx.currency, defaultCurrency with
  | none, some d => { ctx with currency := some d, currencyWasDefault := some true }
  | _, _ => ctx

/-- `src/types.ts` `ParseOptions` (declared in `src/src/index.ts`). -/
structure ParseOptions where
  defaultCurrency : Option String := none

/-- `src/parseMoney.ts` `parseMoney`: validate a provided `defaultCurrency`
against the registry — throwing `MoneyParseError` before any parsing — then
run the default pipeline with the option. -/
def parseMoney (text : String) (options : ParseOptions := {}) :
    Except ParseErr PipelineContext :=
  match options.defaultCurrency with
  | some d =>
    if (getCurrencyByCode d).isSome then .ok (runPipeline text (some d))
    else
      .error (.moneyParse
        "Invalid defaultCurrency: not a valid ISO-4217 currency code" text)
  | none => .ok (runPipeline text none)

/-! ### `src/patterns/regionalFormats.ts` -/

inductive RegionalFormatType where
  | us | eu | swiss | french | indian | unknown
  deriving Repr, DecidableEq

/-- `FormatConfig` (separators are single characters in the source). -/
structure FormatConfig where
  thousandsSeparator : Char
  decimalSeparator : Char
  type : RegionalFormatType
  deriving Repr, DecidableEq

def hasChar (s : String) (c : Char) : Bool := s.toList.contains c

/-- `String.lastIndexOf` for a character. -/
def lastIdxOf (s : String) (c : Char) : Option Nat :=
  (s.toList.reverse.findIdx? fun x => x = c).map fun i => s.toList.length - 1 - i

/-- The regex `/sep(\d+)$/`: number of trailing digits when the string ends
with the separator followed by at least one digit. -/
def trailingDigitsAfter (sep : Char) (s : String) : Option Nat :=
  let rev := s.toList.reverse
  let ds := rev.takeWhile Char.isDigit
  if ds.isEmpty then none
  else
    match rev.drop ds.length with
    | c :: _ => if c = sep then some ds.length else none
    | [] => none

/-- Main part of `isIndianFormat`'s regex before the optional decimal part:
`^\d{1,2},\d{2}(?:,\d{2})*,\d{3}$` — a first group of one or two digits,
one or more two-digit groups, and a final three-digit group. -/
def splitOnChar (sep : Char) : List Char → List (List Char)
  | [] => [[]]
  | c :: rest =>
    let r := splitOnChar sep rest
    if c = sep then [] :: r
    else
      match r with
      | h :: t => (c :: h) :: t
      | [] => [[c]]

def indianMain (main : String) : Bool :=
  match splitOnChar ',' main.toList with
  | [] => false
  | g0 :: rest =>
    (g0.length == 1 || g0.length == 2) && g0.all Char.isDigit &&
      rest.length ≥ 2 &&
      (rest.dropLast.all fun g => g.length == 2 && g.all Char.isDigit) &&
      (match rest.getLast? with
        | some g => g.length == 3 && g.all Char.isDigit
        | none => false)

/-- `isIndianFormat`: the regex
`^\d{1,2},\d{2}(?:,\d{2})*,\d{3}(?:\.\d+)?$`. -/
def isIndianFormat (numberStr : String) : Bool :=
  match splitOnChar '.' numberStr.toList with
  | [main] => indianMain (String.mk main)
  | [main, frac] =>
    indianMain (String.mk main) && !frac.isEmpty && frac.all Char.isDigit
  | _ => false

/-- `detectRegionalFormat`: apostrophe → Swiss; space+comma without period →
French; both comma and period → the rightmost is the decimal separator,
with the Indian-grouping reclassification on the US side; comma only →
European exactly when 1-2 digits trail the last comma; period only →
European exactly when several periods occur; otherwise US. -/
def detectRegionalFormat (numberStr : String) : FormatConfig :=
  let hasComma := hasChar numberStr ','
  let hasPeriod := hasChar numberStr '.'
  let hasApostrophe := hasChar numberStr '\''
  let hasSpace := numberStr.toList.any Char.isWhitespace
  if hasApostrophe then ⟨'\'', '.', .swiss⟩
  else if hasSpace && hasComma && !hasPeriod then ⟨' ', ',', .french⟩
  else if hasComma && hasPeriod then
    let lastCommaIndex := (lastIdxOf numberStr ',').getD 0
    let lastPeriodIndex := (lastIdxOf numberStr '.').getD 0
    if lastCommaIndex > lastPeriodIndex then ⟨'.', ',', .eu⟩
    else if isIndianFormat numberStr then ⟨',', '.', .indian⟩
    else ⟨',', '.', .us⟩
  else if hasComma && !hasPeriod then
    match trailingDigitsAfter ',' numberStr with
    | some d =>
      if d ≤ 2 then ⟨'.', ',', .eu⟩
      else ⟨',', '.', .us⟩
    | none => ⟨',', '.', .us⟩
  else if hasPeriod && !hasComma then
    if numberStr.toList.count '.' > 1 then ⟨'.', ',', .eu⟩
    else ⟨',', '.', .us⟩
  else ⟨',', '.', .us⟩

/-! ### `parseAll` overlap resolution (`src/parseAll.ts`, embedded in
`src/src/index.ts` lines 123-192) -/

/-- A parsed candidate span: `ParseAllResult` restricted to the fields the
overlap-resolution step reads (source field `end` is named `stop`). -/
structure SpanResult where
  start : Nat
  stop : Nat
  currency : Option String := none
  amount : Option ℚ := none
  deriving Repr, DecidableEq

/-- `currency !== undefined && amount !== undefined`. -/
def spanComplete (r : SpanResult) : Bool := r.currency.isSome && r.amount.isSome

/-- Order produced by the comparator
`(a, b) => a.start - b.start, then b.end - a.end` (start ascending, end
descending on ties). -/
def spanLE (a b : SpanResult) : Prop :=
  a.start < b.start ∨ (a.start = b.start ∧ b.stop ≤ a.stop)

instance : DecidableRel spanLE := fun a b => by
  unfold spanLE; infer_instance

instance : IsTotal SpanResult spanLE where
  total a b := by
    rcases lt_trichotomy a.start b.start with h | h | h
    · exact Or.inl (Or.inl h)
    · rcases le_total b.stop a.stop with h2 | h2
      · exact Or.inl (Or.inr ⟨h, h2⟩)
      · exact Or.inr (Or.inr ⟨h.symm, h2⟩)
    · exact Or.inr (Or.inl h)

instance : IsTrans SpanResult spanLE where
  trans a b c hab hbc := by
    rcases hab with h1 | ⟨h1, h1'⟩ <;> rcases hbc with h2 | ⟨h2, h2'⟩
    · exact Or.inl (h1.trans h2)
    · exact Or.inl (h2 ▸ h1)
    · exact Or.inl (h1 ▸ h2)
    · exact Or.inr ⟨h1.trans h2, h2'.trans h1'⟩

/-- `results.sort(comparator)` — any stable sort with the comparator yields
a list sorted by `spanLE`; modelled with insertion sort. -/
def sortSpans (l : List SpanResult) : List SpanResult :=
  List.insertionSort spanLE l

/-- The overlap-removal loop of `parseAll`: keep a candidate that starts at
or after the previous kept end (`lastEnd`, initially `-1`); otherwise, when
it extends past `lastEnd`, replace the previously kept candidate only if
this one is complete and the previous was not (dead in practice: every
candidate pushed into `results` is complete); otherwise drop it.  The
accumulator holds the kept spans in reverse order.  The `[]` case of the
replacement branch is unreachable (`lastEnd` starts at `-1`, below every
start offset, so the first candidate is always pushed). -/
def sweepAux : List SpanResult → Int → List SpanResult → List SpanResult
  | [], _, acc => acc.reverse
  | r :: rest, lastEnd, acc =>
    if (r.start : Int) ≥ lastEnd then sweepAux rest (r.stop : Int) (r :: acc)
    else if (r.stop : Int) > lastEnd then
      match acc with
      | [] => sweepAux rest lastEnd []
      | prev :: accTail =>
        if spanComplete r && !spanComplete prev then
          sweepAux rest (r.stop : Int) (r :: accTail)
        else sweepAux rest lastEnd (prev :: accTail)
    else sweepAux rest lastEnd acc

/-- The sort + overlap-removal tail of `parseAll`.  The preceding candidate
generation (regex battery + pipeline re-parse + completeness filter) is
abstracted by quantifying over every possible candidate list, which covers
the lists produced for every input text. -/
def parseAllSelect (candidates : List SpanResult) : List SpanResult :=
  sweepAux (sortSpans candidates) (-1) []

/-- The cents-word contribution of `parseSlangTerm` (the suffix applies
only to the tokens `buck`/`bucks` with unit value 1); used to state the
amended claim C10. -/
def slangCentsSuffix (s : String) (u : ℚ) (rest : List String) : ℚ :=
  if (s = "buck" ∨ s = "bucks") ∧ u = 1 then
    ((rest.head?.bind CENTS_WORD_MAP).getD 0)
  else 0

/-- Claim-side definition (claim C9's words, for comparison with
`isIndianFormat`): "a first group of up to 3 digits, then groups of exactly
2, then a final group of 3", with the optional decimal part kept as in the
code. -/
def claimIndianMain (main : String) : Bool :=
  match splitOnChar ',' main.toList with
  | [] => false
  | g0 :: rest =>
    (1 ≤ g0.length && g0.length ≤ 3) && g0.all Char.isDigit &&
      rest.length ≥ 2 &&
      (rest.dropLast.all fun g => g.length == 2 && g.all Char.isDigit) &&
      (match rest.getLast? with
        | some g => g.length == 3 && g.all Char.isDigit
        | none => false)

/-- Claim-side Indian format check (see `claimIndianMain`). -/
def claimIndianFormat (numberStr : String) : Bool :=
  match splitOnChar '.' numberStr.toList with
  | [main] => claimIndianMain (String.mk main)
  | [main, frac] =>
    claimIndianMain (String.mk main) && !frac.isEmpty && frac.all Char.isDigit
  | _ => false

/-! ## Theorems -/

/-- Claim C1: numeric detection attempts its sub-parsers in exactly the
fixed order numeric-word-combo → slang term → contextual phrase → plain
numeral → fractional worded number → worded number; the first match
supplies the amount and the later sub-parsers no longer influence the
result (each equation below determines the step's output from the earlier
matchers alone). -/
theorem numericDetection_subparser_order (input : String) (ctx : PipelineContext) :
    (∀ r, matchNumericWordCombo (stripCommas input) = some r →
      numericDetectionStep input ctx = { ctx with amount := some r.value }) ∧
    (∀ r, matchNumericWordCombo (stripCommas input) = none →
      matchSlangTerm (stripCommas input) = some r →
      numericDetectionStep input ctx =
        { ctx with amount := some r.value,
                   currency := some (ctx.currency.getD r.currency) }) ∧
    (∀ r, matchNumericWordCombo (stripCommas input) = none →
      matchSlangTerm (stripCommas input) = none →
      matchContextualPhrase (stripCommas input) = some r →
      numericDetectionStep input ctx =
        { ctx with amount := some r.value,
                   currency := some (ctx.currency.getD r.currency) }) ∧
    (∀ q, matchNumericWordCombo (stripCommas input) = none →
      matchSlangTerm (stripCommas input) = none →
      matchContextualPhrase (stripCommas input) = none →
      findPlainNumber (stripCommas input) = some q →
      numericDetectionStep input ctx = { ctx with amount := some q }) ∧
    (∀ r, matchNumericWordCombo (stripCommas input) = none →
      matchSlangTerm (stripCommas input) = none →
      matchContextualPhrase (stripCommas input) = none →
      findPlainNumber (stripCommas input) = none →
      matchFractionalWordedNumber (stripCommas input) = some r →
      numericDetectionStep input ctx = { ctx with amount := some r.value }) ∧
    (matchNumericWordCombo (stripCommas input) = none →
      matchSlangTerm (stripCommas input) = none →
      matchContextualPhrase (stripCommas input) = none →
      findPlainNumber (stripCommas input) = none →
      matchFractionalWordedNumber (stripCommas input) = none →
      numericDetectionStep input ctx =
        (match findWordedMatch (stripCommas input) with
          | some ws =>
            match wordsToNumber ws with
            | some v => { ctx with amount := some v }
            | none => ctx
          | none => ctx)) := by
  refine ⟨?_, ?_, ?_, ?_, ?_, ?_⟩
  · intro r h1
    simp only [numericDetectionStep, h1]
  · intro r h1 h2
    simp only [numericDetectionStep, h1, h2]
  · intro r h1 h2 h3
    simp only [numericDetectionStep, h1, h2, h3]
  · intro q h1 h2 h3 h4
    simp only [numericDetectionStep, h1, h2, h3, h4]
  · intro r h1 h2 h3 h4 h5
    simp only [numericDetectionStep, h1, h2, h3, h4, h5]
  · intro h1 h2 h3 h4 h5
    simp only [numericDetectionStep, h1, h2, h3, h4, h5]

/-- Witness for C1: on `"5 bucks"` the combo matcher fails, the slang
matcher matches, and the step output is the one the second equation
prescribes. -/
theorem numericDetection_subparser_order_witness :
    matchNumericWordCombo (stripCommas "5 bucks") = none ∧
    matchSlangTerm (stripCommas "5 bucks") = some ⟨5, "USD", "5 bucks"⟩ ∧
    numericDetectionStep "5 bucks" { original := "5 bucks" } =
      { original := "5 bucks", currency := some "USD", amount := some 5 } := by
  refine ⟨by decide, by decide, ?_⟩
  have h := (numericDetection_subparser_order "5 bucks"
      { original := "5 bucks" }).2.1 ⟨5, "USD", "5 bucks"⟩ (by decide) (by decide)
  rw [h]; rfl

/-- Claim C2 (code bug): `parseMoney "$999999999999999999"` does not raise
the overflow error — the plain-numeric branch of `numericDetectionStep` has
no safe-integer guard — and returns an amount above
`Number.MAX_SAFE_INTEGER`, contradicting the spec and the repository's own
tests (`test/parseMoney.test.ts`, the pipeline overflow tests). -/
theorem overflow_guard_missing_on_plain_numeric :
    parseMoney "$999999999999999999" {} =
      .ok { original := "$999999999999999999", currency := some "USD",
            amount := some 999999999999999999, matchesMeta := some () } ∧
    maxSafeInteger < (999999999999999999 : ℚ) := by decide

/-- Claim C4 counterexample: on `"5 bucks euro"` the slang sub-parser
matches and supplies currency USD, yet the pipeline's result keeps the
currency EUR that currency detection guessed from elsewhere in the text —
the atomic sub-parser's currency does not supersede it. -/
theorem slang_currency_does_not_supersede :
    matchSlangTerm (stripCommas "5 bucks euro") = some ⟨5, "USD", "5 bucks"⟩ ∧
    runPipeline "5 bucks euro" none =
      { original := "5 bucks euro", currency := some "EUR", amount := some 5,
        matchesMeta := some () } := by decide

/-- Claim C4 (amended): a matching slang or contextual-phrase sub-parser
supplies the amount unconditionally together with a currency, but a
currency already populated by the currency-detection stage takes precedence
over the sub-parser's own currency (`out.currency ?? match.currency`); the
numeric-word-combo sub-parser supplies the amount only, leaving the
currency untouched. -/
theorem atomic_subparsers_amount_and_fallback_currency
    (input : String) (ctx : PipelineContext) :
    (∀ r, matchNumericWordCombo (stripCommas input) = some r →
      (numericDetectionStep input ctx).amount = some r.value ∧
      (numericDetectionStep input ctx).currency = ctx.currency) ∧
    (∀ r, matchNumericWordCombo (stripCommas input) = none →
      matchSlangTerm (stripCommas input) = some r →
      (numericDetectionStep input ctx).amount = some r.value ∧
      (numericDetectionStep input ctx).currency =
        some (ctx.currency.getD r.currency)) ∧
    (∀ r, matchNumericWordCombo (stripCommas input) = none →
      matchSlangTerm (stripCommas input) = none →
      matchContextualPhrase (stripCommas input) = some r →
      (numericDetectionStep input ctx).amount = some r.value ∧
      (numericDetectionStep input ctx).currency =
        some (ctx.currency.getD r.currency)) := by
  refine ⟨?_, ?_, ?_⟩
  · intro r h1
    simp [numericDetectionStep, h1]
  · intro r h1 h2
    simp [numericDetectionStep, h1, h2]
  · intro r h1 h2 h3
    simp [numericDetectionStep, h1, h2, h3]

/-- Helper: `findIdx?` on `L ++ x :: R` yields `i + L.length` when no
element of `L` satisfies `p` but `x` does. -/
theorem findIdx?_append_cons {α : Type _} (p : α → Bool) (L : List α) (x : α)
    (R : List α) (hL : ∀ t ∈ L, p t = false) (hx : p x = true) :
    ∀ i, List.findIdx? p (L ++ x :: R) i = some (i + L.length) := by
  induction L with
  | nil => intro i; simp [List.findIdx?_cons, hx]
  | cons a as ih =>
    intro i
    have ha := hL a (by simp)
    simp only [List.cons_append, List.findIdx?_cons, ha]
    rw [if_neg (by simp)]
    rw [ih (fun t ht => hL t (by simp [ht])) (i + 1)]
    simp [Nat.add_assoc, Nat.add_comm 1]

/-- Helper: the element at index `L.length` of `L ++ x :: R` is `x`. -/
theorem get?_append_cons {α : Type _} (L : List α) (x : α) (R : List α) :
    (L ++ x :: R).get? L.length = some x := by
  rw [List.get?_eq_getElem?, List.getElem?_append_right (Nat.le_refl _)]
  simp

/-- Helper: the element at index `L.length + 1` of `L ++ x :: R` is the
head of `R`, when it exists. -/
theorem get?_append_cons_succ {α : Type _} (L : List α) (x : α) (R : List α) :
    (L ++ x :: R).get? (L.length + 1) = R.get? 0 := by
  rw [List.get?_eq_getElem?, List.get?_eq_getElem?]
  rw [show L ++ x :: R = (L ++ [x]) ++ R from by simp]
  rw [List.getElem?_append_right (by simp)]
  simp

/-- Helper: `take L.length` of `L ++ x :: R` is `L`. -/
theorem take_append_cons {α : Type _} (L : List α) (x : α) (R : List α) :
    (L ++ x :: R).take L.length = L := by
  simp

/-- Helper: `drop (L.length + 1)` of `L ++ x :: R` is `R`. -/
theorem drop_append_cons {α : Type _} (L : List α) (x : α) (R : List α) :
    (L ++ x :: R).drop (L.length + 1) = R := by
  rw [show L ++ x :: R = (L ++ [x]) ++ R from by simp]
  rw [show L.length + 1 = (L ++ [x]).length from by simp]
  exact List.drop_left _ _

/-- Witness for the amended C4: the slang match on `"5 bucks"` supplies
USD only when the context had no currency; a pre-detected EUR wins. -/
theorem atomic_subparsers_amount_and_fallback_currency_witness :
    (numericDetectionStep "5 bucks"
        { original := "5 bucks", currency := some "EUR" }).currency = some "EUR" ∧
    (numericDetectionStep "5 bucks" { original := "5 bucks" }).currency = some "USD" ∧
    (numericDetectionStep "5 bucks" { original := "5 bucks" }).amount = some 5 := by
  have h1 := (atomic_subparsers_amount_and_fallback_currency "5 bucks"
      { original := "5 bucks", currency := some "EUR" }).2.1
      ⟨5, "USD", "5 bucks"⟩ (by decide) (by decide)
  have h2 := (atomic_subparsers_amount_and_fallback_currency "5 bucks"
      { original := "5 bucks" }).2.1 ⟨5, "USD", "5 bucks"⟩ (by decide) (by decide)
  exact ⟨h1.2, h2.2, h2.1⟩

/-- Claim C3: `parseMoney` validates `options.defaultCurrency` against the
registry and raises the structural error before parsing proceeds when it is
invalid; a validated default is applied — with `currencyWasDefault = true` —
exactly when the pipeline detected no currency, and a detected currency is
never overridden by the default. -/
theorem defaultCurrency_contract :
    (∀ text d, getCurrencyByCode d = none →
      parseMoney text ⟨some d⟩ =
        .error (.moneyParse
          "Invalid defaultCurrency: not a valid ISO-4217 currency code" text)) ∧
    (∀ text d, (getCurrencyByCode d).isSome = true →
      (pipelineSteps text).currency = none →
      parseMoney text ⟨some d⟩ =
        .ok { pipelineSteps text with
              currency := some d, currencyWasDefault := some true } ∧
      runPipeline text none = pipelineSteps text) ∧
    (∀ text d, (getCurrencyByCode d).isSome = true →
      (pipelineSteps text).currency.isSome = true →
      parseMoney text ⟨some d⟩ = .ok (pipelineSteps text) ∧
      runPipeline text none = pipelineSteps text) := by
  refine ⟨?_, ?_, ?_⟩
  · intro text d hd
    simp [parseMoney, hd]
  · intro text d hd hnone
    constructor
    · simp [parseMoney, hd, runPipeline, hnone]
    · simp [runPipeline, hnone]
  · intro text d hd hsome
    obtain ⟨c, hc⟩ := Option.isSome_iff_exists.mp hsome
    constructor
    · simp [parseMoney, hd, runPipeline, hc]
    · simp [runPipeline, hc]

/-- Witness for C3: `"XYZ"` is rejected up front; `"I have 100"` (no
detectable currency) gets the default EUR with the flag set; `"$50"` keeps
the detected USD despite the EUR default. -/
theorem defaultCurrency_contract_witness :
    parseMoney "abc" ⟨some "XYZ"⟩ =
      .error (.moneyParse
        "Invalid defaultCurrency: not a valid ISO-4217 currency code" "abc") ∧
    parseMoney "I have 100" ⟨some "EUR"⟩ =
      .ok { original := "I have 100", currency := some "EUR",
            amount := some 100, currencyWasDefault := some true,
            matchesMeta := some () } ∧
    parseMoney "$50" ⟨some "EUR"⟩ =
      .ok { original := "$50", currency := some "USD", amount := some 50,
            matchesMeta := some () } := by
  refine ⟨defaultCurrency_contract.1 "abc" "XYZ" (by decide), ?_, ?_⟩
  · have h := (defaultCurrency_contract.2.1 "I have 100" "EUR"
      (by decide) (by decide)).1
    rw [h]; decide
  · have h := (defaultCurrency_contract.2.2 "$50" "EUR"
      (by decide) (by decide)).1
    rw [h]; decide

/-- Claim C8 counterexample: on `"9007199254740992 grand"` the slang
pattern genuinely matches and `parseSlangTerm` raises the overflow error,
yet `matchSlangTerm` swallows it and reports no-match; `parseMoney` then
returns normally (through the plain-numeric branch) instead of propagating
the overflow. -/
theorem slang_overflow_swallowed :
    parseSlangTerm "9007199254740992 grand" =
      .error (.overflow "Number exceeds maximum safe integer") ∧
    matchSlangTerm "9007199254740992 grand" = none ∧
    parseMoney "9007199254740992 grand" {} =
      .ok { original := "9007199254740992 grand", currency := none,
            amount := some 9007199254740992, matchesMeta := some () } := by
  decide

/-- Claim C8 (amended): every error a sub-parser raises after its pattern
matched — match failure and overflow alike — is caught by the wrapping
matcher and turned into "no match, try next candidate"; it never aborts the
parse, and consequently no overflow raised inside the slang, fractional or
contextual matchers reaches the caller of `parseMoney`/`parseAll`. -/
theorem match_wrappers_convert_errors_to_no_match :
    (∀ s c e, findSlangCandidate s = some c →
      parseSlangTermTokens c = .error e → matchSlangTerm s = none) ∧
    (∀ s c e, findFractionalCandidate s = some c →
      parseFractionalWordedNumber c = .error e →
      matchFractionalWordedNumber s = none) ∧
    (∀ s e, parseContextualPhraseTokens (ctxTokens s) = .error e →
      matchContextualPhrase s = none) := by
  refine ⟨?_, ?_, ?_⟩
  · intro s c e h1 h2
    by_cases hs : s = "" <;> simp [matchSlangTerm, hs, h1, h2]
  · intro s c e h1 h2
    by_cases hs : s = "" <;> simp [matchFractionalWordedNumber, hs, h1, h2]
  · intro s e h
    by_cases hs : s = ""
    · simp [matchContextualPhrase, hs]
    · simp only [matchContextualPhrase, hs, if_false]
      split
      · simp [h]
      · rfl

/-- Witness for the amended C8: the slang overflow input is converted to
no-match, and a contextual parse failure is converted to no-match. -/
theorem match_wrappers_convert_errors_to_no_match_witness :
    matchSlangTerm "9007199254740992 grand" = none ∧
    matchContextualPhrase "dollars" = none := by
  constructor
  · exact match_wrappers_convert_errors_to_no_match.1
      "9007199254740992 grand" ["9007199254740992", "grand"]
      (.overflow "Number exceeds maximum safe integer") (by decide) (by decide)
  · exact match_wrappers_convert_errors_to_no_match.2.2
      "dollars" (.jsError "Invalid quantity") (by decide)

/-- Claim C10 counterexample: `quid` has unit value 1, `fifty` is a cents
word, yet `parseSlangTerm "quid fifty"` returns 1 — not 1.5 — because the
cents-word suffix is applied only for the literal tokens `buck`/`bucks`. -/
theorem slang_cents_suffix_quid_counterexample :
    SLANG_MAP "quid" = some ("GBP", 1) ∧
    CENTS_WORD_MAP "fifty" = some (50 / 100) ∧
    parseSlangTerm "quid fifty" = .ok ⟨1, "GBP", "quid"⟩ := by decide

/-- Claim C10 (amended): the slang table is exactly
buck/bucks→(USD,1), quid/quids→(GBP,1), fiver/fivers→(GBP,5),
tenner/tenners→(GBP,10), grand/grands→(USD,1000); an optional preceding
numeric/worded/fractional multiplier (up to six tokens) scales the unit
value; and the following cents-word suffix is added only when the slang
token is literally `buck` or `bucks` (unit 1), not for other unit-1 terms. -/
theorem slang_table_quantity_and_cents_suffix :
    (SLANG_MAP "buck" = some ("USD", 1) ∧ SLANG_MAP "bucks" = some ("USD", 1) ∧
     SLANG_MAP "quid" = some ("GBP", 1) ∧ SLANG_MAP "quids" = some ("GBP", 1) ∧
     SLANG_MAP "fiver" = some ("GBP", 5) ∧ SLANG_MAP "fivers" = some ("GBP", 5) ∧
     SLANG_MAP "tenner" = some ("GBP", 10) ∧
     SLANG_MAP "tenners" = some ("GBP", 10) ∧
     SLANG_MAP "grand" = some ("USD", 1000) ∧
     SLANG_MAP "grands" = some ("USD", 1000)) ∧
    (∀ (q : List String) (s : String) (rest : List String) (c : String) (u n : ℚ),
      SLANG_MAP s = some (c, u) →
      (∀ t ∈ q, SLANG_MAP t = none) →
      q.length ≤ 6 →
      parseQuantity q = some n →
      n * u + slangCentsSuffix s u rest ≤ maxSafeInteger →
      ∃ r, parseSlangTermTokens (q ++ s :: rest) = .ok r ∧
        r.currency = c ∧ r.value = n * u + slangCentsSuffix s u rest) := by
  refine ⟨by decide, ?_⟩
  intro q s rest c u n hs hq hlen hn hmax
  have hfind : List.findIdx? (fun t => (SLANG_MAP t).isSome) (q ++ s :: rest) 0 =
      some q.length := by
    have := findIdx?_append_cons (fun t => (SLANG_MAP t).isSome) q s rest
      (fun t ht => by simp only [hq t ht]; rfl) (by simp only [hs]; rfl) 0
    simpa using this
  have hget : (q ++ s :: rest).get? q.length = some s := get?_append_cons q s rest
  have hget1 : (q ++ s :: rest).get? (q.length + 1) = rest.get? 0 :=
    get?_append_cons_succ q s rest
  have htake : (q ++ s :: rest).take q.length = q := take_append_cons q s rest
  have hsub : q.length - 6 = 0 := Nat.sub_eq_zero_of_le hlen
  have hhead : rest.get? 0 = rest.head? := by cases rest <;> rfl
  simp only [parseSlangTermTokens, hfind, hget, Option.getD_some, hs, htake,
    hsub, List.drop_zero, hn, hget1, hhead]
  have hval : (if (s = "buck" ∨ s = "bucks") ∧ u = 1 then
        match rest.head?.bind CENTS_WORD_MAP with
        | some cv => n * u + cv
        | none => n * u
      else n * u) = n * u + slangCentsSuffix s u rest := by
    unfold slangCentsSuffix
    by_cases hcond : (s = "buck" ∨ s = "bucks") ∧ u = 1
    · simp only [hcond, if_true]
      cases hrest : rest.head?.bind CENTS_WORD_MAP <;> simp
    · simp [hcond]
  rw [hval]
  rw [if_neg (not_lt.mpr hmax)]
  exact ⟨_, rfl, rfl, rfl⟩

/-- Witness for the amended C10: `"two bucks"` gives 2 USD and
`"buck fifty"` gives 1.5 USD through the theorem. -/
theorem slang_table_quantity_and_cents_suffix_witness :
    (∃ r, parseSlangTermTokens ["two", "bucks"] = .ok r ∧
      r.currency = "USD" ∧ r.value = 2 * 1 + slangCentsSuffix "bucks" 1 []) ∧
    (∃ r, parseSlangTermTokens ["buck", "fifty"] = .ok r ∧
      r.currency = "USD" ∧ r.value = 1 * 1 + slangCentsSuffix "buck" 1 ["fifty"]) := by
  constructor
  · exact slang_table_quantity_and_cents_suffix.2 ["two"] "bucks" [] "USD" 1 2
      (by decide) (by decide) (by decide) (by decide) (by decide)
  · exact slang_table_quantity_and_cents_suffix.2 [] "buck" ["fifty"] "USD" 1 1
      (by decide) (by decide) (by decide) (by decide) (by decide)

/-- Claim C6: the worded-number converter follows the subtotal/total
algorithm — digit words 0-19 and tens add into the subtotal; `hundred`
multiplies the subtotal, an empty (zero) subtotal counting as 1, so
`a hundred`/`hundred` alone is 100; thousand/million/billion/trillion
multiply the subtotal and flush it into the total, resetting the subtotal
(so `two million three hundred thousand` = 2300000); an unrecognized token
makes the whole parse fail with an error instead of a partial value. -/
theorem wordedNumber_subtotal_total_algorithm :
    (∀ (tot cur : ℚ) (t : String) (v : ℚ), BASIC_NUMBERS t = some v →
      wordedStep (tot, cur) t = .ok (tot, cur + v)) ∧
    (∀ (tot cur : ℚ) (t : String) (v : ℚ), BASIC_NUMBERS t = none →
      TENS t = some v → wordedStep (tot, cur) t = .ok (tot, cur + v)) ∧
    (∀ (tot cur : ℚ), cur ≠ 0 →
      wordedStep (tot, cur) "hundred" = .ok (tot, cur * 100)) ∧
    (∀ tot : ℚ, wordedStep (tot, 0) "hundred" = .ok (tot, 100)) ∧
    (∀ (tot cur : ℚ) (t : String) (m : ℚ), BASIC_NUMBERS t = none →
      TENS t = none → SCALES t = some m → 1000 ≤ m → cur ≠ 0 →
      wordedStep (tot, cur) t = .ok (tot + cur * m, 0)) ∧
    (∀ t : String, BASIC_NUMBERS t = none → TENS t = none →
      SCALES t = none → t ≠ "a" →
      ∀ toks : List String, t ∈ toks →
        ∃ e, parseWordedNumberTokens toks = .error e) ∧
    parseWordedNumber "a hundred" = .ok 100 ∧
    parseWordedNumber "hundred" = .ok 100 ∧
    parseWordedNumber "two million three hundred thousand" = .ok 2300000 := by
  refine ⟨?_, ?_, ?_, ?_, ?_, ?_, by decide, by decide, by decide⟩
  · intro tot cur t v h
    simp [wordedStep, h]
  · intro tot cur t v h1 h2
    simp [wordedStep, h1, h2]
  · intro tot cur hcur
    simp only [wordedStep,
      show BASIC_NUMBERS "hundred" = none from rfl,
      show TENS "hundred" = none from rfl,
      show SCALES "hundred" = some 100 from rfl]
    rw [if_neg hcur, if_neg (by norm_num : ¬ (1000 : ℚ) ≤ 100)]
  · intro tot
    simp only [wordedStep,
      show BASIC_NUMBERS "hundred" = none from rfl,
      show TENS "hundred" = none from rfl,
      show SCALES "hundred" = some 100 from rfl]
    norm_num
  · intro tot cur t m h1 h2 h3 hm hcur
    simp only [wordedStep, h1, h2, h3]
    rw [if_neg hcur, if_pos hm]
  · intro t h1 h2 h3 h4 toks hmem
    have hstep : ∀ st : ℚ × ℚ,
        wordedStep st t =
          .error (.jsError ("Unrecognized word in number: " ++ t)) := by
      intro st
      simp [wordedStep, h1, h2, h3, h4]
    have hfold : ∀ (l : List String) (st : ℚ × ℚ), t ∈ l →
        ∃ e, l.foldlM wordedStep st = Except.error e := by
      intro l
      induction l with
      | nil => intro st h; cases h
      | cons a as ih =>
        intro st hm
        rw [List.foldlM_cons]
        rcases List.mem_cons.mp hm with rfl | hm'
        · exact ⟨_, by rw [hstep st]; rfl⟩
        · cases hsa : wordedStep st a with
          | error e => exact ⟨e, rfl⟩
          | ok st' =>
            obtain ⟨e, he⟩ := ih st' hm'
            exact ⟨e, he⟩
    obtain ⟨e, he⟩ := hfold toks (0, 0) hmem
    refine ⟨e, ?_⟩
    cases toks with
    | nil => cases hmem
    | cons a as =>
      simp only [parseWordedNumberTokens, List.isEmpty_cons, Bool.false_eq_true,
        if_false, reduceIte]
      rw [he]
      rfl

/-- Witness for C6: each step equation at a concrete state, a concrete
unknown-token failure, and the flush example. -/
theorem wordedNumber_subtotal_total_algorithm_witness :
    wordedStep (0, 0) "seven" = .ok (0, 0 + 7) ∧
    wordedStep (0, 7) "twenty" = .ok (0, 7 + 20) ∧
    wordedStep (0, 7) "hundred" = .ok (0, 7 * 100) ∧
    wordedStep (3, 2) "million" = .ok (3 + 2 * 1000000, 0) ∧
    (∃ e, parseWordedNumberTokens ["one", "blorp"] = .error e) ∧
    parseWordedNumber "two million three hundred thousand" = .ok 2300000 := by
  refine ⟨wordedNumber_subtotal_total_algorithm.1 0 0 "seven" 7 (by decide),
    wordedNumber_subtotal_total_algorithm.2.1 0 7 "twenty" 20 (by decide) (by decide),
    wordedNumber_subtotal_total_algorithm.2.2.1 0 7 (by norm_num),
    wordedNumber_subtotal_total_algorithm.2.2.2.2.1 3 2 "million" 1000000
      (by decide) (by decide) (by decide) (by norm_num) (by norm_num),
    wordedNumber_subtotal_total_algorithm.2.2.2.2.2.1 "blorp"
      (by decide) (by decide) (by decide) (by decide) ["one", "blorp"] (by decide),
    wordedNumber_subtotal_total_algorithm.2.2.2.2.2.2.2.2⟩

/-- Claim C9 counterexample: an apostrophe forces Swiss classification even
when both comma and period are present (first input), and a string whose
grouping matches the claim's Indian pattern with a 3-digit first group is
classified US, not Indian (second input, `123,45,678.9`). -/
theorem regional_both_separators_counterexample :
    (hasChar (String.mk ['1', '\'', '2', ',', '3', '.', '4']) ',' = true ∧
     hasChar (String.mk ['1', '\'', '2', ',', '3', '.', '4']) '.' = true ∧
     detectRegionalFormat (String.mk ['1', '\'', '2', ',', '3', '.', '4']) =
       ⟨'\'', '.', .swiss⟩) ∧
    (hasChar "123,45,678.9" ',' = true ∧
     hasChar "123,45,678.9" '.' = true ∧
     (lastIdxOf "123,45,678.9" ',').getD 0 < (lastIdxOf "123,45,678.9" '.').getD 0 ∧
     claimIndianFormat "123,45,678.9" = true ∧
     detectRegionalFormat "123,45,678.9" = ⟨',', '.', .us⟩) := by decide

/-- Claim C9 (amended): for every string containing both a comma and a
period and no apostrophe (an apostrophe forces Swiss), the rightmost of the
two separators is the decimal separator: comma rightmost classifies as
European, otherwise US, reclassified as Indian exactly when the grouping is
a first group of one or two digits, then groups of exactly two, then a
final group of three (`isIndianFormat`). -/
theorem regional_both_separators_rule (s : String)
    (hc : hasChar s ',' = true) (hp : hasChar s '.' = true)
    (ha : hasChar s '\'' = false) :
    detectRegionalFormat s =
      if (lastIdxOf s ',').getD 0 > (lastIdxOf s '.').getD 0 then
        ⟨'.', ',', .eu⟩
      else if isIndianFormat s then ⟨',', '.', .indian⟩
      else ⟨',', '.', .us⟩ := by
  simp [detectRegionalFormat, hc, hp, ha]

/-- Witness for the amended C9 at a US, a European and an Indian input. -/
theorem regional_both_separators_rule_witness :
    detectRegionalFormat "1,234.56" = ⟨',', '.', .us⟩ ∧
    detectRegionalFormat "1.234,56" = ⟨'.', ',', .eu⟩ ∧
    detectRegionalFormat "1,23,456.78" = ⟨',', '.', .indian⟩ := by
  refine ⟨?_, ?_, ?_⟩ <;>
    (rw [regional_both_separators_rule _ (by decide) (by decide) (by decide)]; decide)

/-- Helper: the overlap-removal sweep preserves the non-overlap chain.  The
invariant carried through the loop: every remaining candidate starts at or
after every accumulated span's start (sortedness), the remaining candidates
are pairwise start-sorted, the accumulator (reversed output) is chained,
and `lastEnd` is the accumulator head's end. -/
theorem sweepAux_chain :
    ∀ (rest : List SpanResult) (lastEnd : Int) (acc : List SpanResult),
    (∀ r ∈ rest, ∀ a ∈ acc, a.start ≤ r.start) →
    List.Pairwise (fun a b : SpanResult => a.start ≤ b.start) rest →
    List.Chain' (flip fun a b : SpanResult =>
      a.start ≤ b.start ∧ a.stop ≤ b.start) acc →
    (match acc with
      | [] => True
      | h :: _ => (h.stop : Int) = lastEnd) →
    List.Chain' (fun a b : SpanResult => a.start ≤ b.start ∧ a.stop ≤ b.start)
      (sweepAux rest lastEnd acc) := by
  intro rest
  induction rest with
  | nil =>
    intro lastEnd acc _ _ hacc _
    simpa [sweepAux] using List.chain'_reverse.mpr hacc
  | cons r rs ih =>
    intro lastEnd acc H1 H2 H3 H4
    have hH1' : ∀ x ∈ rs, ∀ a ∈ acc, a.start ≤ x.start :=
      fun x hx a ha => H1 x (List.mem_cons_of_mem r hx) a ha
    have hH2' := (List.pairwise_cons.mp H2).2
    have hH2r := (List.pairwise_cons.mp H2).1
    simp only [sweepAux]
    split
    next hpush =>
      apply ih
      · intro x hx a ha
        rcases List.mem_cons.mp ha with rfl | ha'
        · exact hH2r x hx
        · exact hH1' x hx a ha'
      · exact hH2'
      · cases acc with
        | nil => simp
        | cons h tl =>
          refine List.chain'_cons.mpr ⟨⟨?_, ?_⟩, H3⟩
          · exact H1 r (List.mem_cons_self r rs) h (List.mem_cons_self h tl)
          · exact_mod_cast
              (show (h.stop : Int) ≤ (r.start : Int) by rw [H4]; exact hpush)
      · exact rfl
    next hskip =>
      split
      next hext =>
        split
        · -- accumulator empty: unreachable in runs from the initial state,
          -- but the invariant is preserved trivially
          apply ih
          · intro x hx a ha; cases ha
          · exact hH2'
          · exact List.chain'_nil
          · trivial
        · rename_i prev' accTail'
          split
          next hrepl =>
            apply ih
            · intro x hx a ha
              rcases List.mem_cons.mp ha with rfl | ha'
              · exact hH2r x hx
              · exact hH1' x hx a (List.mem_cons_of_mem prev' ha')
            · exact hH2'
            · cases accTail' with
              | nil => simp
              | cons q tl =>
                refine List.chain'_cons.mpr
                  ⟨⟨?_, ?_⟩, (List.chain'_cons.mp H3).2⟩
                · exact H1 r (List.mem_cons_self r rs) q
                    (List.mem_cons_of_mem prev' (List.mem_cons_self q tl))
                · exact le_trans (List.chain'_cons.mp H3).1.2
                    (H1 r (List.mem_cons_self r rs) prev'
                      (List.mem_cons_self prev' (q :: tl)))
            · exact rfl
          next =>
            apply ih
            · exact hH1'
            · exact hH2'
            · exact H3
            · exact H4
      next =>
        apply ih
        · exact hH1'
        · exact hH2'
        · exact H3
        · exact H4

/-- Claim C7: for every candidate list (hence for the candidates generated
from any input text), the list produced by `parseAll`'s sort +
overlap-removal is sorted ascending by start offset and pairwise
non-overlapping: consecutive results satisfy `earlier.end ≤ later.start`. -/
theorem parseAll_sorted_nonoverlapping (candidates : List SpanResult) :
    List.Chain' (fun a b : SpanResult => a.start ≤ b.start ∧ a.stop ≤ b.start)
      (parseAllSelect candidates) ∧
    List.Pairwise (fun a b : SpanResult => a.start ≤ b.start)
      (parseAllSelect candidates) := by
  have hsorted : List.Pairwise (fun a b : SpanResult => a.start ≤ b.start)
      (sortSpans candidates) := by
    have h := List.sorted_insertionSort spanLE candidates
    exact h.imp fun hab => by
      rcases hab with h1 | ⟨h1, _⟩
      · exact Nat.le_of_lt h1
      · exact Nat.le_of_eq h1
  have hchain := sweepAux_chain (sortSpans candidates) (-1) []
    (by intro x hx a ha; cases ha) hsorted List.chain'_nil trivial
  refine ⟨hchain, ?_⟩
  haveI : IsTrans SpanResult (fun a b : SpanResult => a.start ≤ b.start) :=
    ⟨fun _ _ _ => Nat.le_trans⟩
  exact List.chain'_iff_pairwise.mp (hchain.imp fun _ _ h => h.1)

/-- Helper: the currency-search loop finds the first token that has a
currency interpretation. -/
theorem findCurrencyAux_append (M : List String) (cur code : String)
    (rest : List String) (hM : ∀ t ∈ M, lookupCurrency t = none)
    (hcur : lookupCurrency cur = some code) :
    ∀ i, findCurrencyAux (M ++ cur :: rest) i = some (i + M.length, code) := by
  induction M with
  | nil => intro i; simp [findCurrencyAux, hcur]
  | cons a as ih =>
    intro i
    have ha := hM a (by simp)
    simp only [List.cons_append, findCurrencyAux, ha, List.append_eq]
    rw [ih (fun t ht => hM t (by simp [ht])) (i + 1)]
    simp [Nat.add_assoc, Nat.add_comm 1]

/-- Claim C5: for a compound phrase `<major> <currency> and <minor>
<minorUnit>` the contextual parser returns `major + minor / scale` with
`scale = 10 ^ decimal-digit-count` when `minor < scale` (and the total is
within the ceiling); `minor ≥ scale` raises a structural error rather than
clamping; and a minor unit is rejected outright when the currency has zero
decimal digits. -/
theorem contextual_compound_minor_units
    (M N : List String) (cur mu code : String) (aliasCur : Option String)
    (aliasScale major minor : ℚ)
    (hM : ∀ t ∈ M, lookupCurrency t = none)
    (hcur : lookupCurrency cur = some code)
    (hmaj : parseAmountTokens M = .ok major)
    (hN : ∀ t ∈ N, MINOR_UNIT_ALIASES t = none)
    (hmu : MINOR_UNIT_ALIASES mu = some (aliasCur, aliasScale))
    (hmin : parseAmountTokens N = .ok minor) :
    (aliasCur = none ∨ aliasCur = some code →
      effDigits code ≠ 0 →
      minor < (10 : ℚ) ^ effDigits code →
      major + minor / (10 : ℚ) ^ effDigits code ≤ maxSafeInteger →
      parseContextualPhraseTokens (M ++ cur :: "and" :: (N ++ [mu])) =
        .ok ⟨major + minor / (10 : ℚ) ^ effDigits code, code,
             joinSpaces (M ++ cur :: "and" :: (N ++ [mu]))⟩) ∧
    (aliasCur = none ∨ aliasCur = some code →
      effDigits code ≠ 0 →
      (10 : ℚ) ^ effDigits code ≤ minor →
      parseContextualPhraseTokens (M ++ cur :: "and" :: (N ++ [mu])) =
        .error (.jsError "Invalid minor unit amount")) ∧
    (effDigits code = 0 →
      parseContextualPhraseTokens (M ++ cur :: "and" :: (N ++ [mu])) =
        .error (.jsError "Minor unit not supported for currency")) := by
  have htoksne : (M ++ cur :: "and" :: (N ++ [mu])).isEmpty = false := by
    cases M <;> rfl
  have hfindcur : findCurrencyAux (M ++ cur :: "and" :: (N ++ [mu])) 0 =
      some (M.length, code) := by
    simpa using findCurrencyAux_append M cur code ("and" :: (N ++ [mu])) hM hcur 0
  have htakeM : (M ++ cur :: "and" :: (N ++ [mu])).take M.length = M :=
    take_append_cons M cur _
  have hdrop : (M ++ cur :: "and" :: (N ++ [mu])).drop (M.length + 1) =
      "and" :: (N ++ [mu]) :=
    drop_append_cons M cur _
  have hfindminor : List.findIdx? (fun t => (MINOR_UNIT_ALIASES t).isSome)
      (N ++ [mu]) 0 = some N.length := by
    simpa using findIdx?_append_cons (fun t => (MINOR_UNIT_ALIASES t).isSome)
      N mu [] (fun t ht => by simp only [hN t ht]; rfl)
      (by simp only [hmu]; rfl) 0
  have hgetmu : (N ++ [mu]).get? N.length = some mu := get?_append_cons N mu []
  have htakeN : (N ++ [mu]).take N.length = N := take_append_cons N mu []
  have htakeall : (M ++ cur :: "and" :: (N ++ [mu])).take
      (M.length + 1 + 1 + N.length + 1) = M ++ cur :: "and" :: (N ++ [mu]) := by
    apply List.take_of_length_le
    simp [List.length_append, List.length_cons]
    omega
  have hcore : parseContextualPhraseTokens (M ++ cur :: "and" :: (N ++ [mu])) =
      (match minorScaleForCurrency code mu with
        | none => Except.error (.jsError "Minor unit not supported for currency")
        | some scale =>
          if minor ≥ scale then
            Except.error (.jsError "Invalid minor unit amount")
          else
            finishContextual (major + minor / scale) code
              (joinSpaces (M ++ cur :: "and" :: (N ++ [mu])))) := by
    simp only [parseContextualPhraseTokens, htoksne, Bool.false_eq_true,
      if_false, hfindcur, htakeM, hmaj, hdrop, List.head?_cons, List.tail_cons,
      hfindminor, hgetmu, Option.getD_some, htakeN, hmin, if_pos rfl,
      reduceIte, htakeall]
    rfl
  refine ⟨?_, ?_, ?_⟩
  · intro hcompat hd hlt hmax
    have hscale : minorScaleForCurrency code mu =
        some ((10 : ℚ) ^ effDigits code) := by
      simp only [minorScaleForCurrency, hmu]
      rw [if_neg (by rcases hcompat with rfl | rfl <;> simp)]
      rw [if_neg hd]
    rw [hcore, hscale]
    simp only [ge_iff_le, not_le.mpr hlt, if_false, reduceIte]
    unfold finishContextual
    rw [if_neg (not_lt.mpr hmax)]
  · intro hcompat hd hge
    have hscale : minorScaleForCurrency code mu =
        some ((10 : ℚ) ^ effDigits code) := by
      simp only [minorScaleForCurrency, hmu]
      rw [if_neg (by rcases hcompat with rfl | rfl <;> simp)]
      rw [if_neg hd]
    rw [hcore, hscale]
    simp [ge_iff_le, hge]
  · intro hd
    have hscale : minorScaleForCurrency code mu = none := by
      simp only [minorScaleForCurrency, hmu]
      split <;> simp [hd]
    rw [hcore, hscale]

/-- Witness for C5: `5 dollars and 23 cents` parses to 5.23 USD;
`5 dollars and 100 cents` is rejected; `5 yen and 3 cents` (zero-decimal
JPY) is rejected outright. -/
theorem contextual_compound_minor_units_witness :
    parseContextualPhraseTokens ["5", "dollars", "and", "23", "cents"] =
      .ok ⟨5 + 23 / (10 : ℚ) ^ effDigits "USD", "USD",
           joinSpaces ["5", "dollars", "and", "23", "cents"]⟩ ∧
    parseContextualPhraseTokens ["5", "dollars", "and", "100", "cents"] =
      .error (.jsError "Invalid minor unit amount") ∧
    parseContextualPhraseTokens ["5", "yen", "and", "3", "cents"] =
      .error (.jsError "Minor unit not supported for currency") := by
  refine ⟨?_, ?_, ?_⟩
  · exact (contextual_compound_minor_units ["5"] ["23"] "dollars" "cents" "USD"
      none 100 5 23 (by decide) (by decide) (by decide) (by decide) (by decide)
      (by decide)).1 (Or.inl rfl) (by decide) (by decide) (by decide)
  · exact (contextual_compound_minor_units ["5"] ["100"] "dollars" "cents" "USD"
      none 100 5 100 (by decide) (by decide) (by decide) (by decide) (by decide)
      (by decide)).2.1 (Or.inl rfl) (by decide) (by decide)
  · exact (contextual_compound_minor_units ["5"] ["3"] "yen" "cents" "JPY"
      none 100 5 3 (by decide) (by decide) (by decide) (by decide) (by decide)
      (by decide)).2.2 (by decide)

end Numis
